import Mathlib

/-!
Verification of the autoclash monitoring-and-failover controller.

This file is a shallow embedding of the Go program `main.go` (the current
version of the repository: the variant with the cost-tier grouped,
threshold-escalating selector, the mutex-guarded pool state and the cobra
command wiring).  Pure computations are translated into Lean functions;
the I/O performed by the program (HTTP fetches, latency probes, the switch
call, environment lookup) is passed in as explicit data, so that every
state transition of the three periodic tasks becomes a pure function of
its inputs.  Go `int` is modelled as `Int` with `Int.tdiv` for the
truncating (toward-zero) division Go performs; Go `float64` cost
coefficients are modelled as `ℚ` holding the exact decimal value parsed
from the node name (the program only ever compares and sorts these values,
and every comparison made on the rational model agrees with the float
model on the short decimal literals the parser can produce).
-/

/-! ## Cost-coefficient parsing (`getFlow`)

The Go code extracts the flow coefficient with the regular expression
`(\d+\.\d+)x|(\d+)x` applied by `FindStringSubmatch`, which uses
leftmost-first semantics: candidate start positions are tried left to
right, and at each position the first alternative is preferred.  Because
in both alternatives every `\d+` is immediately followed by a non-digit
literal (`.` or `x`), greedy matching with backtracking coincides with
taking the maximal digit run and then checking the literal, which is what
`matchTokAt` below does. -/

/-- Numeric value of a decimal digit character. -/
def digitVal (c : Char) : ℕ := c.toNat - '0'.toNat

/-- Value of a digit string, most significant digit first (the value
`strconv.ParseFloat` assigns to a string of digits). -/
def digitsToNat (ds : List Char) : ℕ := ds.foldl (fun a c => 10 * a + digitVal c) 0

/-- The submatch produced by the flow regex: either the first capture group
(a decimal number, integer part and fractional part) or the second capture
group (an integer). -/
inductive FlowTok where
  | dec : List Char → List Char → FlowTok
  | intg : List Char → FlowTok
deriving DecidableEq, Repr

/-- Match of `(\d+\.\d+)x|(\d+)x` anchored at the start of `cs`, preferring
the first alternative as `FindStringSubmatch` does at a fixed position. -/
def matchTokAt (cs : List Char) : Option FlowTok :=
  if (cs.takeWhile Char.isDigit).isEmpty then none
  else
    match cs.dropWhile Char.isDigit with
    | 'x' :: _ => some (FlowTok.intg (cs.takeWhile Char.isDigit))
    | '.' :: r2 =>
      if (r2.takeWhile Char.isDigit).isEmpty then none
      else
        match r2.dropWhile Char.isDigit with
        | 'x' :: _ =>
          some (FlowTok.dec (cs.takeWhile Char.isDigit) (r2.takeWhile Char.isDigit))
        | _ => none
    | _ => none

/-- Leftmost match of the flow regex: positions are tried left to right. -/
def findTok : List Char → Option FlowTok
  | [] => none
  | c :: cs =>
    match matchTokAt (c :: cs) with
    | some t => some t
    | none => findTok cs

/-- Exact value of the decimal literal `ip.fp` (what `strconv.ParseFloat`
parses, represented exactly in `ℚ`). -/
def parseDecQ (ip fp : List Char) : ℚ :=
  (digitsToNat ip : ℚ) + (digitsToNat fp : ℚ) / (10 : ℚ) ^ fp.length

/-- Function `getFlow` from `main.go`: extract the flow coefficient from a node
name; `1.0` when the regex does not match.  When the first capture group is
non-empty its parsed value is returned, otherwise the second group's. -/
def getFlow (name : String) : ℚ :=
  match findTok name.toList with
  | none => 1
  | some (FlowTok.dec ip fp) => parseDecQ ip fp
  | some (FlowTok.intg ds) => (digitsToNat ds : ℚ)

/-- A digit immediately followed by the letter `x` occurs in `cs`: the
executable test for "the name contains a recognizable number-`x` token"
(the flow regex matches `cs` iff this holds). -/
def hasTok : List Char → Bool
  | [] => false
  | c :: cs => (c.isDigit && cs.head? == some 'x') || hasTok cs

/-! ## Data model -/

/-- Struct `ProxyNode` from `main.go`.  The Go field `Type` is rendered `Typ`
(`Type` is reserved in Lean).  `Flow` is the Go `float64` cost coefficient
modelled as `ℚ`; `Latency` is a Go `int`. -/
structure ProxyNode where
  Name : String
  Typ : String
  Alive : Bool
  Now : String
  Flow : ℚ
  Latency : Int
deriving DecidableEq, Repr

/-- The aggregate/group proxy kinds skipped by `getNodes` (the Go slice
literal, duplicate included). -/
def ignoreTypes : List String :=
  ["Selector", "Direct", "URLTest", "Fallback", "LoadBalance", "Reject", "Selector"]

/-! ## Latency scoring (the probe loop inside `selectFastestNode`)

Each node's goroutine runs `testNode` `TestTimes` times, accumulating
`totalLatency` and `successCount` over the trials whose result is `> 0`,
and finally stores either the truncated mean or `-1` into `node.Latency`.
The probe results themselves are network input; they enter the model as an
explicit list of trial outcomes (resp. an oracle `probe` indexed by node
and trial number in `scorePool`). -/

/-- The accumulation loop over one node's trials: Go locals
`(totalLatency, successCount)` threaded left to right. -/
def scoreLoop : List Int → Int × Int → Int × Int
  | [], acc => acc
  | l :: ls, acc =>
    scoreLoop ls (if 0 < l then (acc.1 + l, acc.2 + 1) else acc)

/-- The latency written for one node after its trials: `totalLatency /
successCount` (Go truncating division) when some trial succeeded, else
`-1`. -/
def nodeScore (trials : List Int) : Int :=
  let acc := scoreLoop trials (0, 0)
  if 0 < acc.2 then Int.tdiv acc.1 acc.2 else -1

/-- The configuration fields `selectFastestNode` reads. -/
structure SelectCfg where
  TestTimes : Nat
  LatencyThreshold : Int
deriving Repr

/-- The probe fan-out: every node's `Latency` field is overwritten with the
score of its `TestTimes` trials (the goroutines write disjoint fields and
`wg.Wait()` is a barrier, so the batch is the pointwise map below). -/
def scorePool (cfg : SelectCfg) (probe : ProxyNode → Nat → Int)
    (pool : List ProxyNode) : List ProxyNode :=
  pool.map (fun n =>
    { n with Latency := nodeScore ((List.range cfg.TestTimes).map (probe n)) })

/-- Forget the one field `selectFastestNode` writes (used to state the
frame property). -/
def clearLatency (n : ProxyNode) : ProxyNode := { n with Latency := 0 }

/-! ## Tier grouping and the escalation loop -/

/-- The member list of one cost tier: `nodeGroups[f]` is built by walking
`gNodes` in order and appending, i.e. it is the sublist of the scored pool
whose `Flow` equals `f`. -/
def tierOf (scored : List ProxyNode) (f : ℚ) : List ProxyNode :=
  scored.filter (fun n => decide (n.Flow = f))

/-- The inner scan of one tier: Go locals `(bestNode, bestLatency)`
starting at `(nil, -1)`; a node is taken when its latency is positive,
within the threshold, and strictly better than the best so far. -/
def pickAux (thr : Int) (nodes : List ProxyNode) (acc : Option ProxyNode × Int) :
    Option ProxyNode × Int :=
  nodes.foldl
    (fun acc n =>
      if 0 < n.Latency ∧ n.Latency ≤ thr ∧ (acc.2 = -1 ∨ n.Latency < acc.2)
      then (some n, n.Latency) else acc)
    acc

/-- Best qualifying node of one tier at threshold `thr` (`bestNode` after
the scan), if any. -/
def pickBest (thr : Int) (nodes : List ProxyNode) : Option ProxyNode :=
  (pickAux thr nodes (none, -1)).1

/-- One pass over the cost tiers in the given (ascending) key order: the
first tier owning a qualifying node wins. -/
def passTiers (thr : Int) (scored : List ProxyNode) : List ℚ → Option ProxyNode
  | [] => none
  | f :: fs =>
    match pickBest thr (tierOf scored f) with
    | some n => some n
    | none => passTiers thr scored fs

/-- Insertion into a `≤`-sorted list of flow keys. -/
def insertFlow (x : ℚ) : List ℚ → List ℚ
  | [] => [x]
  | y :: ys => if x ≤ y then x :: y :: ys else y :: insertFlow x ys

/-- Effect of `sort.Float64s` over the distinct flow keys: ascending order. -/
def sortFlows : List ℚ → List ℚ
  | [] => []
  | x :: xs => insertFlow x (sortFlows xs)

/-- Outcome of one iteration of the escalation `for` loop body: a node was
returned, the threshold was raised and the loop repeats, or the raised
threshold passed `2 * base` and the loop breaks to the failure return. -/
inductive PassOut where
  | found : ProxyNode → PassOut
  | escalated : Int → PassOut
  | exhausted : PassOut
deriving DecidableEq, Repr

/-- One iteration of the escalation loop at threshold `thr`: run a pass;
on failure add `base / 10` (Go truncating division) and test the
`> base * 2` exit. -/
def escalStep (base : Int) (tiers : List ℚ) (scored : List ProxyNode)
    (thr : Int) : PassOut :=
  match passTiers thr scored tiers with
  | some n => PassOut.found n
  | none =>
    let thr' := thr + Int.tdiv base 10
    if base * 2 < thr' then PassOut.exhausted else PassOut.escalated thr'

/-- The escalation loop, fuelled (the Go loop has no bound of its own; the
fuel makes the possible divergence observable).  `some (some (n, t))` is a
successful return of node `n` at threshold `t`, `some none` the
"没有找到合适的节点" failure return, `none` fuel exhaustion, i.e. the Go
loop still running after that many iterations. -/
def escalate (base : Int) (tiers : List ℚ) (scored : List ProxyNode) :
    Nat → Int → Option (Option (ProxyNode × Int))
  | 0, _ => none
  | fuel + 1, thr =>
    match escalStep base tiers scored thr with
    | PassOut.found n => some (some (n, thr))
    | PassOut.exhausted => some none
    | PassOut.escalated thr' => escalate base tiers scored fuel thr'

/-- Function `selectFastestNode` from `main.go`: score the pool, group it by flow
coefficient, sort the distinct flow keys ascending, then run the
escalation loop starting at the configured threshold.  The returned pair
additionally records the threshold at which the winning pass ran (the Go
function discards it). -/
def selectFastestNode (fuel : Nat) (cfg : SelectCfg)
    (probe : ProxyNode → Nat → Int) (pool : List ProxyNode) :
    Option (Option (ProxyNode × Int)) :=
  let scored := scorePool cfg probe pool
  let tiers := sortFlows ((scored.map (fun n => n.Flow)).dedup)
  escalate cfg.LatencyThreshold tiers scored fuel cfg.LatencyThreshold

/-! ## Snapshot fetching (`getNodes`) and the updater task

The HTTP transport and JSON decoding are external; a fetch cycle's raw
input enters as `Except FetchErr (List RawNode)` (the entries of the
`proxies` map in the iteration order Go happened to use) and the two
configured regular expressions enter as their compiled matchers, or
`none` when compilation fails. -/

/-- A decoded entry of the `GET /proxies` response (`Flow` and `Latency`
carry `json:"-"` and stay at their zero values until `getNodes` fills
`Flow`). -/
structure RawNode where
  Name : String
  Typ : String
  Alive : Bool
  Now : String
deriving DecidableEq, Repr

/-- The classification loop of `getNodes` over the decoded entries:
accumulates the selectable node list (in encounter order, `Flow` computed
from the name, `Latency` still zero) and the `currentName` recorded from
the distinguished selector entry's `Now` field. -/
def collectNodes (selectName : String) (raw : List RawNode) :
    List ProxyNode × String :=
  raw.foldl
    (fun acc rn =>
      let toIgnore := ignoreTypes.contains rn.Typ
      if rn.Name = selectName then (acc.1, rn.Now)
      else if toIgnore || !rn.Alive then acc
      else (acc.1 ++ [{ Name := rn.Name, Typ := rn.Typ, Alive := rn.Alive,
                        Now := rn.Now, Flow := getFlow rn.Name, Latency := 0 }],
            acc.2))
    ([], "")

/-- The body of `filterNodes` once both regexes compiled: keep the nodes
whose name the include matcher accepts and the exclude matcher rejects. -/
def filterNodes (inc exc : String → Bool) (nodes : List ProxyNode) :
    List ProxyNode :=
  nodes.filter (fun n => inc n.Name && !exc n.Name)

/-- The failure classes of one fetch cycle: transport failure, body
read/decode failure, or an invalid configured regex (detected inside
`filterNodes`). -/
inductive FetchErr where
  | transport
  | decode
  | badIncludeRegex
  | badExcludeRegex
deriving DecidableEq, Repr

/-- Function `getNodes` from `main.go`: propagate the fetch error; otherwise
classify the entries, filter them through the compiled regexes (failing
with a regex error when compilation failed), and resolve the current node
as the first filtered node named `currentName`. -/
def getNodes (fetched : Except FetchErr (List RawNode))
    (incRe excRe : Option (String → Bool)) (selectName : String) :
    Except FetchErr (List ProxyNode × Option ProxyNode) :=
  match fetched with
  | Except.error e => Except.error e
  | Except.ok raw =>
    match incRe with
    | none => Except.error FetchErr.badIncludeRegex
    | some inc =>
      match excRe with
      | none => Except.error FetchErr.badExcludeRegex
      | some exc =>
        let res := collectNodes selectName raw
        let filtered := filterNodes inc exc res.1
        let current := filtered.find? (fun n => n.Name == res.2)
        Except.ok (filtered, current)

/-- The process-wide shared state `gNodes` / `gCurrent` / `gBest`. -/
structure PoolState where
  nodes : List ProxyNode
  current : Option ProxyNode
  best : Option ProxyNode
deriving DecidableEq, Repr

/-- One iteration of `startNodeUpdater` under the lock: on a fetch error
or an empty node list the shared state is left untouched (the task only
logs and sleeps); otherwise `gNodes` and `gCurrent` are replaced and
`gBest` is untouched. -/
def updaterCycle (fetchRes : Except FetchErr (List ProxyNode × Option ProxyNode))
    (s : PoolState) : PoolState :=
  match fetchRes with
  | Except.error _ => s
  | Except.ok res =>
    if res.1.length = 0 then s
    else { s with nodes := res.1, current := res.2 }

/-! ## The failover controller (`startCurrentNodeChecker`)

One tick of the checker, under the lock.  The probe of the current node,
the outcome of a synchronous `selectFastestNode` call and the outcome of
the `switchNode` call are network input and enter through `TickEnv`
(`selector = none` models `selectFastestNode` returning an error, in
which case Go's `gBest, err = selectFastestNode()` leaves `gBest = nil`).
Go compares `gBest == gCurrent` by pointer; the model compares the node
values, which agrees whenever the pool holds no two distinct nodes with
identical field values. -/

/-- The checker-visible shared state. -/
structure CtrlState where
  best : Option ProxyNode
  current : Option ProxyNode
deriving DecidableEq, Repr

/-- The external outcomes one checker tick consumes. -/
structure TickEnv where
  delay : Int
  selector : Option ProxyNode
  switchOk : Bool
deriving Repr

/-- Observables of one checker tick: the new shared state, whether the
selector was invoked synchronously, and the node named in the switch
request (`none` when no switch request was issued). -/
structure TickOut where
  state : CtrlState
  selectorInvoked : Bool
  switchTarget : Option ProxyNode
deriving DecidableEq, Repr

/-- One tick of `startCurrentNodeChecker`: degrade on `delay == -1 ||
delay > LatencyThreshold*2`; refresh `gBest` synchronously when it is nil
or equal to `gCurrent` (skipping the switch when the selector fails);
issue the switch naming `gBest` and commit `gCurrent = gBest` only on
switch success. -/
def checkerTick (threshold : Int) (env : TickEnv) (s : CtrlState) : TickOut :=
  if env.delay = -1 ∨ threshold * 2 < env.delay then
    if s.best = none ∨ s.best = s.current then
      match env.selector with
      | none => { state := { best := none, current := s.current },
                  selectorInvoked := true, switchTarget := none }
      | some b =>
        if env.switchOk then
          { state := { best := some b, current := some b },
            selectorInvoked := true, switchTarget := some b }
        else
          { state := { best := some b, current := s.current },
            selectorInvoked := true, switchTarget := some b }
    else
      match s.best with
      | some b =>
        if env.switchOk then
          { state := { best := some b, current := some b },
            selectorInvoked := false, switchTarget := some b }
        else
          { state := { best := some b, current := s.current },
            selectorInvoked := false, switchTarget := some b }
      | none =>
        { state := s, selectorInvoked := false, switchTarget := none }
  else
    { state := s, selectorInvoked := false, switchTarget := none }

/-! ## Configuration loading and the environment-override loop

`loadConfig` reads and unmarshals the YAML file (external I/O, entering as
the already-parsed `Config`), then walks the struct fields by reflection:
for every field whose environment variable `AUTOCLASH_<upper-cased field
name>` is non-empty it calls `reflect.Value.SetString` on the field.
`SetString` succeeds only on fields of kind `String`; on the `int` fields
of `Config` it panics with `reflect: call of reflect.Value.SetString on
int Value`, aborting `loadConfig`.  The override loop is modelled in
`Except`, the error value standing for that panic. -/

/-- The `Config` struct, fields in declaration (= reflection) order. -/
structure Config where
  APIEndpoint : String
  APIKey : String
  IncludeRegex : String
  ExcludeRegex : String
  TestURL : String
  RetrieveInterval : Int
  CurrentInterval : Int
  BestInterval : Int
  TestTimes : Int
  SelectNode : String
  LatencyThreshold : Int
deriving DecidableEq, Repr

/-- Names of the `Config` fields, one constructor per struct field. -/
inductive CfgField where
  | apiEndpoint | apiKey | includeRegex | excludeRegex | testURL
  | retrieveInterval | currentInterval | bestInterval | testTimes
  | selectNode | latencyThreshold
deriving DecidableEq, Repr

/-- The Go name of each field, as reflection reports it. -/
def CfgField.goName : CfgField → String
  | CfgField.apiEndpoint => "APIEndpoint"
  | CfgField.apiKey => "APIKey"
  | CfgField.includeRegex => "IncludeRegex"
  | CfgField.excludeRegex => "ExcludeRegex"
  | CfgField.testURL => "TestURL"
  | CfgField.retrieveInterval => "RetrieveInterval"
  | CfgField.currentInterval => "CurrentInterval"
  | CfgField.bestInterval => "BestInterval"
  | CfgField.testTimes => "TestTimes"
  | CfgField.selectNode => "SelectNode"
  | CfgField.latencyThreshold => "LatencyThreshold"

/-- The fields in struct declaration order, the order the reflection loop
visits them. -/
def configFields : List CfgField :=
  [CfgField.apiEndpoint, CfgField.apiKey, CfgField.includeRegex,
   CfgField.excludeRegex, CfgField.testURL, CfgField.retrieveInterval,
   CfgField.currentInterval, CfgField.bestInterval, CfgField.testTimes,
   CfgField.selectNode, CfgField.latencyThreshold]

/-- Behavior of `reflect.Value.SetString` on one field: sets the string fields, panics
(error) on the `int` fields. -/
def setStringField (c : Config) (f : CfgField) (v : String) :
    Except String Config :=
  match f with
  | CfgField.apiEndpoint => Except.ok { c with APIEndpoint := v }
  | CfgField.apiKey => Except.ok { c with APIKey := v }
  | CfgField.includeRegex => Except.ok { c with IncludeRegex := v }
  | CfgField.excludeRegex => Except.ok { c with ExcludeRegex := v }
  | CfgField.testURL => Except.ok { c with TestURL := v }
  | CfgField.selectNode => Except.ok { c with SelectNode := v }
  | _ => Except.error ("reflect: call of reflect.Value.SetString on int Value")

/-- Go `strings.ToUpper`: uppercase every character (the field names involved
are plain ASCII, for which per-character uppercasing is exactly what Go
does). -/
def goToUpper (s : String) : String := String.mk (s.data.map Char.toUpper)

/-- The environment-override loop of `loadConfig`: `env` is `os.Getenv`
(returning `""` for unset variables); a non-empty value is written to the
field via `SetString`. -/
def applyEnvOverrides (env : String → String) (c : Config) :
    Except String Config :=
  configFields.foldlM
    (fun c f =>
      let envValue := env ("AUTOCLASH_" ++ goToUpper f.goName)
      if envValue = "" then Except.ok c else setStringField c f envValue)
    c

/-! ## Concrete data for counterexamples and witnesses -/

/-- A baseline configuration (the file contents for the `loadConfig`
evaluations). -/
def cfg0 : Config :=
  { APIEndpoint := "http://127.0.0.1:9090", APIKey := "key",
    IncludeRegex := ".*", ExcludeRegex := "tail", TestURL := "http://e.com",
    RetrieveInterval := 300, CurrentInterval := 30, BestInterval := 300,
    TestTimes := 3, SelectNode := "sel", LatencyThreshold := 100 }

/-- An environment with only `AUTOCLASH_TESTTIMES` set (an `int` field). -/
def envTestTimes : String → String :=
  fun k => if k = "AUTOCLASH_TESTTIMES" then "5" else ""

/-- An environment with only `AUTOCLASH_APIKEY` set (a string field). -/
def envApiKey : String → String :=
  fun k => if k = "AUTOCLASH_APIKEY" then "secret" else ""

/-- A concrete node used by witnesses. -/
def nodeA : ProxyNode :=
  { Name := "A", Typ := "Trojan", Alive := true, Now := "", Flow := 1,
    Latency := 50 }

/-- A second concrete node used by witnesses. -/
def nodeC : ProxyNode :=
  { Name := "C", Typ := "Trojan", Alive := true, Now := "", Flow := 1,
    Latency := 400 }

/-- Scenario pool node X: cost 1, probes at 100 ms. -/
def nodeX : ProxyNode :=
  { Name := "X", Typ := "Trojan", Alive := true, Now := "", Flow := 1,
    Latency := 100 }

/-- Scenario pool node Y: cost 1, probes at 50 ms. -/
def nodeY : ProxyNode :=
  { Name := "Y", Typ := "Trojan", Alive := true, Now := "", Flow := 1,
    Latency := 50 }

/-- Scenario pool node Z: cost 2, probes at 10 ms. -/
def nodeZ : ProxyNode :=
  { Name := "Z", Typ := "Trojan", Alive := true, Now := "", Flow := 2,
    Latency := 10 }

/-- Scenario pool node Y with its probe failing (no signal). -/
def nodeYDead : ProxyNode :=
  { Name := "Y", Typ := "Trojan", Alive := true, Now := "", Flow := 1,
    Latency := -1 }

/-- Scenario selector configuration: one trial, base threshold 120 ms. -/
def cfgW : SelectCfg := { TestTimes := 1, LatencyThreshold := 120 }

/-- Scenario probe oracle: every trial of a node reports the latency
stored in the node (so a node with `Latency = -1` has a failing probe). -/
def probeW : ProxyNode → Nat → Int := fun n _ => n.Latency

/-- Scenario pool for the cheapest-tier-first witness. -/
def poolW : List ProxyNode := [nodeX, nodeY, nodeZ]

/-- Scenario pool for the positive-latency witness (Y's probe fails). -/
def poolWB : List ProxyNode := [nodeX, nodeYDead]

/-- A concrete shared pool state used by witnesses. -/
def stateW : PoolState := { nodes := [nodeA], current := some nodeA, best := none }

/-! ## Lemmas about the tier scan and the escalation loop -/

/-- The tier scan can only move its accumulator from `nil` to a node,
never back. -/
theorem pickAux_fst_none {thr : Int} :
    ∀ (ns : List ProxyNode) (acc : Option ProxyNode × Int),
      (pickAux thr ns acc).1 = none → acc.1 = none := by
  intro ns
  induction ns with
  | nil => intro acc h; exact h
  | cons n ns ih =>
    intro acc h
    by_cases hc : 0 < n.Latency ∧ n.Latency ≤ thr ∧ (acc.2 = -1 ∨ n.Latency < acc.2)
    · have h' : (pickAux thr ns (some n, n.Latency)).1 = none := by
        simpa [pickAux, hc] using h
      exact absurd (ih _ h') (by simp)
    · exact ih _ (by simpa [pickAux, hc] using h)

/-- If the tier scan returns no node, no node of the tier qualifies at the
threshold. -/
theorem pickBest_none_no_qual {thr : Int} :
    ∀ (ns : List ProxyNode), pickBest thr ns = none →
      ∀ n ∈ ns, ¬ (0 < n.Latency ∧ n.Latency ≤ thr) := by
  have aux : ∀ (ns : List ProxyNode) (acc : Option ProxyNode × Int),
      (pickAux thr ns acc).1 = none →
      ∀ n ∈ ns, ¬ (0 < n.Latency ∧ n.Latency ≤ thr ∧ (acc.2 = -1 ∨ n.Latency < acc.2)) := by
    intro ns
    induction ns with
    | nil => intro acc _ n hn; cases hn
    | cons m ns ih =>
      intro acc h n hn
      by_cases hc : 0 < m.Latency ∧ m.Latency ≤ thr ∧ (acc.2 = -1 ∨ m.Latency < acc.2)
      · have h' : (pickAux thr ns (some m, m.Latency)).1 = none := by
          simpa [pickAux, hc] using h
        exact absurd (pickAux_fst_none _ _ h') (by simp)
      · rcases List.mem_cons.mp hn with rfl | hn'
        · exact hc
        · exact ih _ (by simpa [pickAux, hc] using h) n hn'
  intro ns h n hn hq
  exact aux ns (none, -1) h n hn ⟨hq.1, hq.2, Or.inl rfl⟩

/-- Any node the tier scan returns is a member of the tier and qualifies
at the threshold. -/
theorem pickBest_some_qual {thr : Int} :
    ∀ (ns : List ProxyNode) (b : ProxyNode), pickBest thr ns = some b →
      b ∈ ns ∧ 0 < b.Latency ∧ b.Latency ≤ thr := by
  have aux : ∀ (ns : List ProxyNode) (acc : Option ProxyNode × Int) (b : ProxyNode),
      (pickAux thr ns acc).1 = some b →
      acc.1 = some b ∨ (b ∈ ns ∧ 0 < b.Latency ∧ b.Latency ≤ thr) := by
    intro ns
    induction ns with
    | nil => intro acc b h; exact Or.inl h
    | cons m ns ih =>
      intro acc b h
      by_cases hc : 0 < m.Latency ∧ m.Latency ≤ thr ∧ (acc.2 = -1 ∨ m.Latency < acc.2)
      · have h' : (pickAux thr ns (some m, m.Latency)).1 = some b := by
          simpa [pickAux, hc] using h
        rcases ih _ _ h' with h'' | h''
        · have hmb : m = b := by simpa using h''
          subst hmb
          exact Or.inr ⟨List.mem_cons_self _ _, hc.1, hc.2.1⟩
        · exact Or.inr ⟨List.mem_cons_of_mem _ h''.1, h''.2⟩
      · rcases ih _ _ (by simpa [pickAux, hc] using h) with h'' | h''
        · exact Or.inl h''
        · exact Or.inr ⟨List.mem_cons_of_mem _ h''.1, h''.2⟩
  intro ns b h
  rcases aux ns (none, -1) b h with h' | h'
  · cases h'
  · exact h'

/-- A successful pass splits the tier key list into the failing earlier
tiers, the winning tier, and an unexamined remainder. -/
theorem passTiers_some_split {thr : Int} {scored : List ProxyNode} :
    ∀ {fs : List ℚ} {n : ProxyNode}, passTiers thr scored fs = some n →
      ∃ l₁ f l₂, fs = l₁ ++ f :: l₂ ∧ pickBest thr (tierOf scored f) = some n ∧
        ∀ g ∈ l₁, pickBest thr (tierOf scored g) = none := by
  intro fs
  induction fs with
  | nil => intro n h; simp [passTiers] at h
  | cons f fs ih =>
    intro n h
    cases hp : pickBest thr (tierOf scored f) with
    | some m =>
      have hmn : m = n := by simpa [passTiers, hp] using h
      exact ⟨[], f, fs, rfl, by simpa [hmn] using hp, by simp⟩
    | none =>
      have h' : passTiers thr scored fs = some n := by simpa [passTiers, hp] using h
      obtain ⟨l₁, g, l₂, rfl, h2, h3⟩ := ih h'
      refine ⟨f :: l₁, g, l₂, rfl, h2, ?_⟩
      intro g' hg'
      rcases List.mem_cons.mp hg' with rfl | hg''
      · exact hp
      · exact h3 g' hg''

/-- Inversion of one loop iteration: a node was found exactly when the
pass succeeded. -/
theorem escalStep_found_iff {base : Int} {tiers : List ℚ} {scored : List ProxyNode}
    {thr : Int} {n : ProxyNode} :
    escalStep base tiers scored thr = PassOut.found n ↔
      passTiers thr scored tiers = some n := by
  cases hp : passTiers thr scored tiers with
  | some m => simp [escalStep, hp]
  | none =>
    simp only [escalStep, hp]
    constructor
    · intro h
      by_cases hb : base * 2 < thr + Int.tdiv base 10 <;> simp [hb] at h
    · intro h; cases h

/-- Inversion of one loop iteration: escalation records the raised
threshold and means the exit test failed. -/
theorem escalStep_escalated {base : Int} {tiers : List ℚ} {scored : List ProxyNode}
    {thr thr' : Int} (h : escalStep base tiers scored thr = PassOut.escalated thr') :
    thr' = thr + Int.tdiv base 10 ∧ ¬ base * 2 < thr' := by
  cases hp : passTiers thr scored tiers with
  | some m => simp [escalStep, hp] at h
  | none =>
    simp only [escalStep, hp] at h
    by_cases hb : base * 2 < thr + Int.tdiv base 10
    · simp [hb] at h
    · simp only [hb, if_false] at h
      cases h
      exact ⟨rfl, hb⟩

/-- A successful run of the escalation loop ends with a successful pass at
the returned threshold. -/
theorem escalate_success {base : Int} {tiers : List ℚ} {scored : List ProxyNode} :
    ∀ {fuel : Nat} {thr t : Int} {n : ProxyNode},
      escalate base tiers scored fuel thr = some (some (n, t)) →
      passTiers t scored tiers = some n := by
  intro fuel
  induction fuel with
  | zero => intro thr t n h; simp [escalate] at h
  | succ fuel ih =>
    intro thr t n h
    cases hs : escalStep base tiers scored thr with
    | found m =>
      have : m = n ∧ thr = t := by simpa [escalate, hs] using h
      rcases this with ⟨rfl, rfl⟩
      exact escalStep_found_iff.mp hs
    | exhausted => simp [escalate, hs] at h
    | escalated thr' => exact ih (by simpa [escalate, hs] using h)

/-- Membership of a cost tier. -/
theorem mem_tierOf {scored : List ProxyNode} {f : ℚ} {n : ProxyNode} :
    n ∈ tierOf scored f ↔ n ∈ scored ∧ n.Flow = f := by
  simp [tierOf, List.mem_filter]

/-- Membership of an insertion. -/
theorem mem_insertFlow {x a : ℚ} : ∀ {l : List ℚ}, a ∈ insertFlow x l ↔ a = x ∨ a ∈ l := by
  intro l
  induction l with
  | nil => simp [insertFlow]
  | cons y ys ih =>
    by_cases hxy : x ≤ y
    · simp [insertFlow, hxy]
    · simp [insertFlow, hxy, ih]
      tauto

/-- Insertion preserves being sorted. -/
theorem pairwise_insertFlow {x : ℚ} :
    ∀ {l : List ℚ}, List.Pairwise (fun a b => a ≤ b) l →
      List.Pairwise (fun a b => a ≤ b) (insertFlow x l) := by
  intro l
  induction l with
  | nil => intro _; simp [insertFlow]
  | cons y ys ih =>
    intro h
    rcases List.pairwise_cons.mp h with ⟨hy, hys⟩
    by_cases hxy : x ≤ y
    · rw [insertFlow, if_pos hxy]
      refine List.pairwise_cons.mpr ⟨?_, h⟩
      intro b hb
      rcases List.mem_cons.mp hb with rfl | hb'
      · exact hxy
      · exact le_trans hxy (hy b hb')
    · rw [insertFlow, if_neg hxy]
      refine List.pairwise_cons.mpr ⟨?_, ih hys⟩
      intro b hb
      rcases mem_insertFlow.mp hb with rfl | hb'
      · exact le_of_not_le hxy
      · exact hy b hb'

/-- Membership of the sorted key list. -/
theorem mem_sortFlows {a : ℚ} : ∀ {l : List ℚ}, a ∈ sortFlows l ↔ a ∈ l := by
  intro l
  induction l with
  | nil => simp [sortFlows]
  | cons x xs ih => simp [sortFlows, mem_insertFlow, ih]

/-- The sorted key list is sorted ascending. -/
theorem pairwise_sortFlows : ∀ (l : List ℚ), List.Pairwise (fun a b => a ≤ b) (sortFlows l)
  | [] => by simp [sortFlows]
  | x :: xs => by
    simpa [sortFlows] using pairwise_insertFlow (pairwise_sortFlows xs)

/-- C1: at the threshold at which `selectFastestNode` succeeds, the chosen
node's cost coefficient is no greater than that of any node in the scored
pool that satisfies the threshold — tiers are examined in ascending cost
order and the first tier with a qualifying endpoint wins, so a cheaper
tier with a qualifying endpoint is never passed over for a more expensive
one. -/
theorem selectFastestNode_cheapest_tier_first
    (fuel : Nat) (cfg : SelectCfg) (probe : ProxyNode → Nat → Int)
    (pool : List ProxyNode) (n : ProxyNode) (t : Int)
    (h : selectFastestNode fuel cfg probe pool = some (some (n, t))) :
    ∀ n' ∈ scorePool cfg probe pool, 0 < n'.Latency → n'.Latency ≤ t →
      n.Flow ≤ n'.Flow := by
  intro n' hn' hpos hle
  have hesc : escalate cfg.LatencyThreshold
      (sortFlows (((scorePool cfg probe pool).map (fun m => m.Flow)).dedup))
      (scorePool cfg probe pool) fuel cfg.LatencyThreshold = some (some (n, t)) := h
  have hpass := escalate_success hesc
  obtain ⟨l₁, f, l₂, hsplit, hwin, hfail⟩ := passTiers_some_split hpass
  have hnmem := pickBest_some_qual _ _ hwin
  have hnf : n.Flow = f := (mem_tierOf.mp hnmem.1).2
  have hmem' : n'.Flow ∈
      sortFlows (((scorePool cfg probe pool).map (fun m => m.Flow)).dedup) := by
    rw [mem_sortFlows, List.mem_dedup]
    exact List.mem_map.mpr ⟨n', hn', rfl⟩
  have hsorted :=
    pairwise_sortFlows (((scorePool cfg probe pool).map (fun m => m.Flow)).dedup)
  rw [hsplit] at hmem' hsorted
  rcases List.mem_append.mp hmem' with hin1 | hin2
  · exact absurd ⟨hpos, hle⟩
      (pickBest_none_no_qual _ (hfail _ hin1) n' (mem_tierOf.mpr ⟨hn', rfl⟩))
  · rcases List.mem_cons.mp hin2 with heq | hin2'
    · rw [hnf, ← heq]
    · have hp2 := (List.pairwise_append.mp hsorted).2.1
      rw [hnf]
      exact (List.pairwise_cons.mp hp2).1 _ hin2'

/-- C1 witness: in the pool `X (cost 1, 100 ms), Y (cost 1, 50 ms), Z
(cost 2, 10 ms)` with base threshold 120, selection returns `Y`, whose
cost is no greater than qualifying `Z`'s. -/
theorem selectFastestNode_cheapest_tier_first_witness :
    selectFastestNode 1 cfgW probeW poolW = some (some (nodeY, 120)) ∧
      nodeY.Flow ≤ nodeZ.Flow := by
  constructor
  · decide
  · exact selectFastestNode_cheapest_tier_first 1 cfgW probeW poolW nodeY 120
      (by decide) nodeZ (by decide) (by decide) (by decide)

/-- C3: a node returned by `selectFastestNode` always has strictly
positive measured latency; in particular a node carrying the `-1` "no
signal" sentinel is never the selection result. -/
theorem selectFastestNode_latency_pos
    (fuel : Nat) (cfg : SelectCfg) (probe : ProxyNode → Nat → Int)
    (pool : List ProxyNode) (n : ProxyNode) (t : Int)
    (h : selectFastestNode fuel cfg probe pool = some (some (n, t))) :
    0 < n.Latency := by
  have hesc : escalate cfg.LatencyThreshold
      (sortFlows (((scorePool cfg probe pool).map (fun m => m.Flow)).dedup))
      (scorePool cfg probe pool) fuel cfg.LatencyThreshold = some (some (n, t)) := h
  obtain ⟨l₁, f, l₂, _, hwin, _⟩ := passTiers_some_split (escalate_success hesc)
  exact (pickBest_some_qual _ _ hwin).2.1

/-- C3 witness: with `Y`'s probe failing (`-1`), selection over
`[X, Y]` at threshold 120 returns `X`, whose latency is positive. -/
theorem selectFastestNode_latency_pos_witness :
    selectFastestNode 1 cfgW probeW poolWB = some (some (nodeX, 120)) ∧
      0 < nodeX.Latency := by
  constructor
  · decide
  · exact selectFastestNode_latency_pos 1 cfgW probeW poolWB nodeX 120 (by decide)

/-- If one loop iteration leaves the threshold unchanged (which happens
exactly when `base / 10` truncates to zero and the exit test fails), the
escalation loop never returns, whatever fuel it is given. -/
theorem escalate_stuck {base : Int} {tiers : List ℚ} {scored : List ProxyNode}
    {thr : Int} (h : escalStep base tiers scored thr = PassOut.escalated thr) :
    ∀ fuel : Nat, escalate base tiers scored fuel thr = none := by
  intro fuel
  induction fuel with
  | zero => rfl
  | succ fuel ih => simpa [escalate, h] using ih

/-- C2 counterexample: with `baseThreshold = 5` (any positive base below
10 behaves the same) the increment `5 / 10` truncates to `0`, the
threshold never moves off `5`, the exit test `5 > 10` never fires, and the
loop is still running after 100 iterations — far beyond the handful of
attempts the claim allows — without ever producing the "no suitable
endpoint" failure.  The second conjunct exhibits the loop's state
repeating, i.e. true divergence. -/
theorem escalate_small_base_diverges :
    escalate 5 [] [] 100 5 = none ∧
      escalStep 5 [] [] 5 = PassOut.escalated 5 := by
  constructor
  · decide
  · decide

/-- As long as the remaining fuel times the increment is enough to push
the threshold past `2 * base`, the loop cannot run out of fuel. -/
theorem escalate_exits {base : Int} {tiers : List ℚ} {scored : List ProxyNode} :
    ∀ (fuel : Nat) (thr : Int),
      base * 2 < thr + ((fuel : Int) + 1) * Int.tdiv base 10 →
      escalate base tiers scored (fuel + 1) thr ≠ none := by
  intro fuel
  induction fuel with
  | zero =>
    intro thr hlt h
    cases hs : escalStep base tiers scored thr with
    | found n => simp [escalate, hs] at h
    | exhausted => simp [escalate, hs] at h
    | escalated thr' =>
      rcases escalStep_escalated hs with ⟨rfl, hno⟩
      exact hno (by simpa using hlt)
  | succ fuel ih =>
    intro thr hlt h
    cases hs : escalStep base tiers scored thr with
    | found n => simp [escalate, hs] at h
    | exhausted => simp [escalate, hs] at h
    | escalated thr' =>
      rcases escalStep_escalated hs with ⟨rfl, _⟩
      have harith : thr + ((fuel : Int) + 1 + 1) * Int.tdiv base 10 =
          (thr + Int.tdiv base 10) + ((fuel : Int) + 1) * Int.tdiv base 10 := by
        ring
      refine ih (thr + Int.tdiv base 10) ?_ (by simpa [escalate, hs] using h)
      rw [← harith]
      exact lt_of_lt_of_le hlt (le_of_eq (by push_cast; ring))

/-- The key arithmetic fact behind termination for realistic thresholds:
for `base ≥ 10` twenty-one increments of `base / 10` overshoot `base`. -/
theorem tdiv_bound {base : Int} (h : 10 ≤ base) :
    base < 21 * Int.tdiv base 10 := by
  have h0 : (0 : Int) ≤ base := le_trans (by norm_num) h
  have hb : base = Int.ofNat base.toNat := by
    rw [Int.ofNat_eq_coe, Int.toNat_of_nonneg h0]
  set n := base.toNat with hn
  have h10 : (10 : ℕ) ≤ n := by omega
  have hdiv : Int.tdiv (Int.ofNat n) (10 : Int) = Int.ofNat (n / 10) := rfl
  rw [hb, hdiv]
  have hq : 1 ≤ n / 10 := (Nat.one_le_div_iff (by norm_num)).mpr h10
  have hmod : n % 10 < 10 := Nat.mod_lt _ (by norm_num)
  have hdm : 10 * (n / 10) + n % 10 = n := Nat.div_add_mod n 10
  have : n < 21 * (n / 10) := by omega
  rw [Int.ofNat_eq_coe, Int.ofNat_eq_coe]
  exact_mod_cast this

/-- C2 amended: for every `baseThreshold ≥ 10` the escalation loop
terminates within 21 passes over the tiers — it either returns a node or
fails once the threshold exceeds `2 * baseThreshold`.  (For `0 <
baseThreshold < 10` the Go increment `baseThreshold / 10` is `0` and the
loop never exits when no node qualifies; see the counterexample.) -/
theorem escalate_terminates (base : Int) (tiers : List ℚ) (scored : List ProxyNode)
    (h : 10 ≤ base) :
    escalate base tiers scored 21 base ≠ none := by
  have h21 : base * 2 < base + ((20 : Int) + 1) * Int.tdiv base 10 := by
    have := tdiv_bound h
    omega
  exact escalate_exits 20 base (by exact_mod_cast h21)

/-- C2 witness: with base threshold 100 and an empty pool the loop stops
within 21 passes (the exit test fires once the threshold passes 200). -/
theorem escalate_terminates_witness : escalate 100 [] [] 21 100 ≠ none :=
  escalate_terminates 100 [] [] (by norm_num)

/-- The trial-accumulation loop computes the sum and the count of the
strictly positive trial results, on top of whatever the accumulator
already holds. -/
theorem scoreLoop_eq :
    ∀ (trials : List Int) (acc : Int × Int),
      scoreLoop trials acc =
        (acc.1 + (trials.filter (fun l => decide (0 < l))).sum,
         acc.2 + ((trials.filter (fun l => decide (0 < l))).length : Int)) := by
  intro trials
  induction trials with
  | nil => intro acc; simp [scoreLoop]
  | cons l ls ih =>
    intro acc
    by_cases hl : 0 < l
    · simp only [scoreLoop, if_pos hl, ih, List.filter_cons,
        decide_eq_true_eq, hl, if_pos, List.sum_cons, List.length_cons,
        Prod.mk.injEq]
      constructor <;> push_cast <;> ring
    · simp only [scoreLoop, if_neg hl, ih, List.filter_cons]
      simp [hl]

/-- C8: a node's score counts exactly the strictly positive trial results
as successes; it is `-1` when no trial succeeded, and otherwise the
truncated (toward zero) mean of the successful trials only. -/
theorem nodeScore_spec (trials : List Int) :
    nodeScore trials =
      if (trials.filter (fun l => decide (0 < l))).length = 0 then -1
      else Int.tdiv (trials.filter (fun l => decide (0 < l))).sum
        ((trials.filter (fun l => decide (0 < l))).length : Int) := by
  simp only [nodeScore, scoreLoop_eq trials (0, 0)]
  by_cases h : (trials.filter (fun l => decide (0 < l))).length = 0
  · simp [h]
  · have hpos : (0 : Int) < ((trials.filter (fun l => decide (0 < l))).length : Int) := by
      omega
    simp only [h, if_false]
    simp [hpos]

/-- C10: a selection run rewrites only the `Latency` field of the pool:
erasing latencies from the pool after the probe batch gives back the
original pool with latencies erased — same membership, same order, and
every `Name`, `Typ`, `Alive`, `Now` and `Flow` field unchanged — and the
pool length is preserved. -/
theorem scorePool_frame (cfg : SelectCfg) (probe : ProxyNode → Nat → Int)
    (pool : List ProxyNode) :
    (scorePool cfg probe pool).map clearLatency = pool.map clearLatency ∧
      (scorePool cfg probe pool).length = pool.length := by
  constructor
  · simp [scorePool, clearLatency, List.map_map, Function.comp]
  · simp [scorePool]

/-- C4: the failover tick state machine.  The tick is a no-op unless the
probe of the active node returned `-1` or exceeded `2 * baseThreshold`
(degradation).  In a degraded tick the selector is invoked synchronously
exactly when the cached preference is nil or equals the active node; when
an effective preferred node exists (the fresh selector result if invoked,
the cached one otherwise) the switch request names it, and the active
node becomes the preferred one on switch success while staying unchanged
on switch failure. -/
theorem checkerTick_state_machine (T : Int) (env : TickEnv) (s : CtrlState) :
    (¬ (env.delay = -1 ∨ T * 2 < env.delay) →
      checkerTick T env s =
        { state := s, selectorInvoked := false, switchTarget := none }) ∧
    ((env.delay = -1 ∨ T * 2 < env.delay) →
      ((checkerTick T env s).selectorInvoked = true ↔
        (s.best = none ∨ s.best = s.current))) ∧
    ((env.delay = -1 ∨ T * 2 < env.delay) → ∀ b : ProxyNode,
      (if s.best = none ∨ s.best = s.current then env.selector else s.best) =
          some b →
      (checkerTick T env s).switchTarget = some b ∧
      (env.switchOk = true →
        (checkerTick T env s).state = { best := some b, current := some b }) ∧
      (env.switchOk = false → (checkerTick T env s).state.current = s.current)) := by
  refine ⟨?_, ?_, ?_⟩
  · intro hdeg
    simp [checkerTick, hdeg]
  · intro hdeg
    by_cases hbr : s.best = none ∨ s.best = s.current
    · cases henv : env.selector with
      | none => simp [checkerTick, hdeg, hbr, henv]
      | some b => cases hsw : env.switchOk <;> simp [checkerTick, hdeg, hbr, henv, hsw]
    · cases hb : s.best with
      | none => exact absurd (Or.inl hb) hbr
      | some b =>
        have hne : ¬ (some b = s.current) := fun h => hbr (Or.inr (hb ▸ h))
        cases hsw : env.switchOk <;>
          simp [checkerTick, hdeg, hbr, hb, hne, hsw]
  · intro hdeg b hpref
    by_cases hbr : s.best = none ∨ s.best = s.current
    · rw [if_pos hbr] at hpref
      cases hsw : env.switchOk <;>
        simp [checkerTick, hdeg, hbr, hpref, hsw]
    · rw [if_neg hbr] at hpref
      have hne : ¬ (some b = s.current) := fun h => hbr (Or.inr (hpref ▸ h))
      cases hsw : env.switchOk <;>
        simp [checkerTick, hdeg, hbr, hpref, hne, hsw]

/-- C4 witness: spec failover scenario — the active node's probe returns
`-1` and no preference is cached; the selector produces node `A`, the
switch succeeds, and the active node becomes `A`. -/
theorem checkerTick_state_machine_witness :
    (checkerTick 100 { delay := -1, selector := some nodeA, switchOk := true }
        { best := none, current := some nodeC }).state =
      { best := some nodeA, current := some nodeA } :=
  ((checkerTick_state_machine 100
      { delay := -1, selector := some nodeA, switchOk := true }
      { best := none, current := some nodeC }).2.2
    (Or.inl rfl) nodeA (by decide)).2.1 rfl

/-- C5: the snapshot-refresh cycle is atomic — whenever `getNodes` fails
(transport, decode, or either regex failing to compile) or returns an
empty filtered list, the shared pool state is left exactly as it was;
the pool (and the resolved current node) is replaced, with the cached
best node untouched, only on a successful non-empty fetch. -/
theorem updaterCycle_atomic (fetched : Except FetchErr (List RawNode))
    (incRe excRe : Option (String → Bool)) (selectName : String) (s : PoolState) :
    (∀ e : FetchErr, getNodes fetched incRe excRe selectName = Except.error e →
      updaterCycle (getNodes fetched incRe excRe selectName) s = s) ∧
    (∀ cur : Option ProxyNode,
      getNodes fetched incRe excRe selectName = Except.ok ([], cur) →
      updaterCycle (getNodes fetched incRe excRe selectName) s = s) ∧
    (∀ (ns : List ProxyNode) (cur : Option ProxyNode),
      getNodes fetched incRe excRe selectName = Except.ok (ns, cur) → ns ≠ [] →
      updaterCycle (getNodes fetched incRe excRe selectName) s =
        { nodes := ns, current := cur, best := s.best }) := by
  refine ⟨?_, ?_, ?_⟩
  · intro e he
    rw [he]
    rfl
  · intro cur hok
    rw [hok]
    rfl
  · intro ns cur hok hne
    rw [hok]
    have : ns.length ≠ 0 := fun h => hne (List.length_eq_zero.mp h)
    simp only [updaterCycle, this, if_false]

/-- C5 witness: a transport failure leaves a concrete pool state
untouched. -/
theorem updaterCycle_atomic_witness :
    updaterCycle
        (getNodes (Except.error FetchErr.transport)
          (some (fun _ => true)) (some (fun _ => false)) ("sel"))
        stateW = stateW :=
  (updaterCycle_atomic (Except.error FetchErr.transport)
      (some (fun _ => true)) (some (fun _ => false)) ("sel") stateW).1
    FetchErr.transport rfl

/-- C9: evaluating the environment-override loop of `loadConfig`.  With
only `AUTOCLASH_TESTTIMES` (an `int` field) set, the reflection loop
panics in `reflect.Value.SetString` instead of returning normally with
the field replaced — the claim holds for string fields (second conjunct:
`AUTOCLASH_APIKEY` does shadow the file value) but fails for every
non-string field. -/
theorem loadConfig_env_override_eval :
    applyEnvOverrides envTestTimes cfg0 =
        Except.error ("reflect: call of reflect.Value.SetString on int Value") ∧
      applyEnvOverrides envApiKey cfg0 = Except.ok { cfg0 with APIKey := "secret" } := by
  constructor
  · rfl
  · rfl

/-- A token somewhere in `m` is a token in `l ++ m`. -/
theorem hasTok_append_right :
    ∀ (l m : List Char), hasTok m = true → hasTok (l ++ m) = true := by
  intro l m hm
  induction l with
  | nil => simpa using hm
  | cons a l ih => simp [hasTok, ih]

/-- A non-empty digit run directly followed by `x` is a token. -/
theorem hasTok_digits_x :
    ∀ (ds r : List Char), ds ≠ [] → (∀ c ∈ ds, c.isDigit = true) →
      hasTok (ds ++ 'x' :: r) = true
  | [], _, h, _ => absurd rfl h
  | [c], r, _, hdig => by simp [hasTok, hdig c (by simp)]
  | c :: d :: ds', r, _, hdig => by
    have ht := hasTok_digits_x (d :: ds') r (by simp)
      (fun a ha => hdig a (List.mem_cons_of_mem _ ha))
    simp only [List.cons_append] at ht ⊢
    rw [hasTok, ht, Bool.or_true]

/-- If the anchored matcher succeeds, the string holds a token. -/
theorem matchTokAt_some_hasTok :
    ∀ {cs : List Char} {t : FlowTok}, matchTokAt cs = some t → hasTok cs = true := by
  intro cs t h
  have hcs : cs.takeWhile Char.isDigit ++ cs.dropWhile Char.isDigit = cs :=
    List.takeWhile_append_dropWhile _ _
  rw [matchTokAt] at h
  split at h
  · cases h
  · rename_i hd1
    have hne : cs.takeWhile Char.isDigit ≠ [] := by
      intro hemp; exact hd1 (by simp [hemp])
    have hdig : ∀ c ∈ cs.takeWhile Char.isDigit, c.isDigit = true :=
      fun c hc => List.mem_takeWhile_imp hc
    split at h
    · rename_i tl hr1
      rw [← hcs, hr1]
      exact hasTok_digits_x _ _ hne hdig
    · rename_i r2 hr1
      split at h
      · cases h
      · rename_i hd2
        have hne2 : r2.takeWhile Char.isDigit ≠ [] := by
          intro hemp; exact hd2 (by simp [hemp])
        have hdig2 : ∀ c ∈ r2.takeWhile Char.isDigit, c.isDigit = true :=
          fun c hc => List.mem_takeWhile_imp hc
        split at h
        · rename_i r4 hr3
          have hr2 : r2 = r2.takeWhile Char.isDigit ++ 'x' :: r4 := by
            conv_lhs => rw [← List.takeWhile_append_dropWhile Char.isDigit r2]
            rw [hr3]
          have hin : hasTok (r2.takeWhile Char.isDigit ++ 'x' :: r4) = true :=
            hasTok_digits_x _ _ hne2 hdig2
          rw [← hcs, hr1, hr2]
          have hall := hasTok_append_right (cs.takeWhile Char.isDigit ++ ['.'])
            (r2.takeWhile Char.isDigit ++ 'x' :: r4) hin
          simpa using hall
        · cases h
    · cases h

/-- With no token anywhere, the leftmost search fails. -/
theorem findTok_eq_none :
    ∀ {cs : List Char}, hasTok cs = false → findTok cs = none := by
  intro cs
  induction cs with
  | nil => intro _; rfl
  | cons a cs ih =>
    intro h
    have hsplit : (a.isDigit && cs.head? == some 'x') = false ∧ hasTok cs = false := by
      simpa [hasTok, Bool.or_eq_false_iff] using h
    have hm : matchTokAt (a :: cs) = none := by
      cases hma : matchTokAt (a :: cs) with
      | none => rfl
      | some t =>
        have := matchTokAt_some_hasTok hma
        rw [h] at this
        cases this
    rw [findTok, hm, ih hsplit.2]

/-- Predicate `hasTok` decides exactly "some digit is immediately followed by an
`x`". -/
theorem hasTok_iff_exists :
    ∀ (cs : List Char),
      hasTok cs = true ↔
        ∃ (l r : List Char) (c : Char),
          cs = l ++ c :: 'x' :: r ∧ c.isDigit = true := by
  intro cs
  induction cs with
  | nil =>
    simp [hasTok]
  | cons a cs ih =>
    constructor
    · intro h
      have h' : (a.isDigit && cs.head? == some 'x') = true ∨ hasTok cs = true := by
        simpa [hasTok] using h
      rcases h' with h1 | h2
      · have h1' : a.isDigit = true ∧ cs.head? = some 'x' := by simpa using h1
        cases cs with
        | nil => simp at h1'
        | cons b cs' =>
          have hb : b = 'x' := by simpa using h1'.2
          exact ⟨[], cs', a, by simp [hb], h1'.1⟩
      · obtain ⟨l, r, c, rfl, hc⟩ := ih.mp h2
        exact ⟨a :: l, r, c, rfl, hc⟩
    · rintro ⟨l, r, c, heq, hc⟩
      cases l with
      | nil =>
        simp only [List.nil_append, List.cons.injEq] at heq
        rcases heq with ⟨rfl, rfl⟩
        simp [hasTok, hc]
      | cons b l' =>
        simp only [List.cons_append, List.cons.injEq] at heq
        rcases heq with ⟨rfl, rfl⟩
        have ht : hasTok (l' ++ c :: 'x' :: r) = true :=
          (ih).mpr ⟨l', r, c, rfl, hc⟩
        simp [hasTok, ht]

/-- C6 counterexample: `"11.5x"` contains the substring `"1.5x"`, yet
`getFlow` parses the leftmost token `"11.5x"` and returns `11.5`, not
`1.5` — so "any name containing `1.5x` yields `1.5`" fails as stated. -/
theorem getFlow_contains_counterexample :
    getFlow ("11.5x") ≠ 3 / 2 ∧ "11.5x" = "1" ++ "1.5x" ∧
      getFlow ("11.5x") = 23 / 2 := by
  have h1 : findTok (("11.5x").toList) = some (FlowTok.dec ['1', '1'] ['5']) := by
    decide
  have h2 : digitsToNat ['1', '1'] = 11 := by decide
  have h3 : digitsToNat ['5'] = 5 := by decide
  have hv : getFlow ("11.5x") = 23 / 2 := by
    simp only [getFlow, h1, parseDecQ, h2, h3, List.length_singleton]
    norm_num
  refine ⟨by rw [hv]; norm_num, rfl, hv⟩

/-- C6 amended: `getFlow` is a total deterministic function of the name;
a name in which no digit is immediately followed by `x` (no recognizable
number-`x` token) yields exactly `1`; and on names whose leftmost token
is the stated one — such as the names `"1.5x"` and `"(2x)"` themselves —
it returns `1.5` resp. `2`. -/
theorem getFlow_spec :
    (∀ s : String,
        (¬ ∃ (l r : List Char) (c : Char),
            s.toList = l ++ c :: 'x' :: r ∧ c.isDigit = true) →
        getFlow s = 1) ∧
      getFlow ("1.5x") = 3 / 2 ∧ getFlow ("(2x)") = 2 := by
  refine ⟨?_, ?_, ?_⟩
  · intro s hno
    have hft : hasTok s.toList = false := by
      cases hh : hasTok s.toList with
      | false => rfl
      | true => exact absurd ((hasTok_iff_exists _).mp hh) hno
    rw [getFlow, findTok_eq_none hft]
  · have h1 : findTok (("1.5x").toList) = some (FlowTok.dec ['1'] ['5']) := by
      decide
    have h2 : digitsToNat ['1'] = 1 := by decide
    have h3 : digitsToNat ['5'] = 5 := by decide
    simp only [getFlow, h1, parseDecQ, h2, h3, List.length_singleton]
    norm_num
  · have h1 : findTok (("(2x)").toList) = some (FlowTok.intg ['2']) := by decide
    have h2 : digitsToNat ['2'] = 2 := by decide
    simp only [getFlow, h1, h2]
    norm_num

/-- C6 witness: a name with no number-`x` token parses to `1`. -/
theorem getFlow_spec_witness : getFlow ("Fast Node") = 1 :=
  getFlow_spec.1 ("Fast Node")
    (fun hex => by
      have h := (hasTok_iff_exists (("Fast Node").toList)).mpr hex
      exact absurd h (by decide))

/-- C7 counterexample: the name `"0x"` parses to a cost coefficient of
exactly `0`, which is not strictly positive. -/
theorem getFlow_zero_counterexample :
    getFlow ("0x") = 0 ∧ ¬ (0 < getFlow ("0x")) := by
  have h1 : findTok (("0x").toList) = some (FlowTok.intg ['0']) := by decide
  have h2 : digitsToNat ['0'] = 0 := by decide
  have hv : getFlow ("0x") = 0 := by
    simp only [getFlow, h1, h2]
    norm_num
  exact ⟨hv, by rw [hv]; exact lt_irrefl 0⟩

/-- C7 amended: the parsed cost coefficient is always non-negative (it is
`1` when no token is present and otherwise the value of a non-negative
decimal literal, which can be `0`, e.g. for `"0x"`). -/
theorem getFlow_nonneg (s : String) : 0 ≤ getFlow s := by
  rw [getFlow]
  cases findTok s.toList with
  | none => norm_num
  | some t =>
    cases t with
    | dec ip fp =>
      show 0 ≤ parseDecQ ip fp
      rw [parseDecQ]
      positivity
    | intg ds =>
      show 0 ≤ (digitsToNat ds : ℚ)
      positivity
